import Mathlib

/-!
Verification of the staged APK-assembly pipeline of `ndk-build/src/apk.rs`:
a shallow embedding of the library stager (`UnalignedApk::add_lib`), the
pending-library set, the device controller (`Apk::uidof`,
`Apk::reverse_port_forwarding`) and the typestate build chain
(`ApkConfig::create_apk` → `UnalignedApk::add_pending_libs_and_align` →
`UnsignedApk::sign`).  Strings are modelled as `List Char`, raw process
output as `List Nat` (bytes).
-/

/-- Model of `NdkError`, restricted to the variants reachable from the code
embedded here.  `CmdFailed` carries the argument list of the failed command;
`NotAUid` carries the unparseable field (the `ParseIntError` detail is
dropped, the carried string is kept). -/
inductive NdkErr
  | CmdFailed (args : List (List Char))
  | PathNotFound (path : List Char)
  | PackageNotInOutput (package output : List Char)
  | UidNotInOutput (output : List Char)
  | NotAUid (uid : List Char)
deriving DecidableEq

deriving instance DecidableEq for Except

/-- Rust `str::split_once(' ')`: split at the first space, the space itself
excluded from both halves; `none` when no space occurs. -/
def splitOnceSpace : List Char → Option (List Char × List Char)
  | [] => none
  | c :: cs =>
    if c = ' ' then some ([], cs)
    else (splitOnceSpace cs).map (fun p => (c :: p.1, p.2))

/-- Rust `str::strip_pre fix`-style removal: `some rest` when the first
argument is a leading segment of the second. -/
def stripPfx : List Char → List Char → Option (List Char)
  | [], s => some s
  | _ :: _, [] => none
  | p :: ps, c :: cs => if p = c then stripPfx ps cs else none

/-- Split at every newline character, keeping empty segments
(`str::split('\n')`). -/
def splitNl : List Char → List (List Char)
  | [] => [[]]
  | c :: cs =>
    if c = '\n' then [] :: splitNl cs
    else
      match splitNl cs with
      | [] => [[c]]
      | h :: t => (c :: h) :: t

/-- Drop one trailing carriage return from a line (`str::lines` treats CRLF
as a line ending too). -/
def stripCr (l : List Char) : List Char :=
  if l.getLast? = some '\r' then l.dropLast else l

/-- Rust `str::lines` applied to the newline-split segments: every segment
except the final one was terminated by a `\n` and loses one trailing `\r`
(a CRLF ending); a final empty segment (optional trailing line ending) is
dropped; a final nonempty segment is an unterminated line and is kept
as-is, a trailing `\r` included. -/
def rustLinesAux : List (List Char) → List (List Char)
  | [] => []
  | [last] => if last = [] then [] else [last]
  | l :: rest => stripCr l :: rustLinesAux rest

/-- Rust `str::lines`: split at newlines, with the final line ending
optional and CRLF accepted. -/
def rustLines (s : List Char) : List (List Char) :=
  rustLinesAux (splitNl s)

/-- Accumulate the value of a digit string; `none` at the first non-digit. -/
def digitsValAux : Nat → List Char → Option Nat
  | acc, [] => some acc
  | acc, c :: cs =>
    if c.isDigit then digitsValAux (acc * 10 + (c.toNat - '0'.toNat)) cs
    else none

/-- Rust `str::parse::<u32>`: an optional leading `+`, then a nonempty digit
string whose value fits in 32 bits; anything else is a parse error. -/
def parseU32 (s : List Char) : Option Nat :=
  let body :=
    match s with
    | '+' :: r => r
    | _ => s
  match body with
  | [] => none
  | _ =>
    match digitsValAux 0 body with
    | none => none
    | some n => if n < 2 ^ 32 then some n else none

def pkgField : List Char := "package:".toList

def uidField : List Char := "uid:".toList

/-- The pure part of `Apk::uidof` (apk.rs lines 326–342): parse the already
UTF-8-decoded stdout of `pm list package -U <package>`.  Lines are split at
the first space; a line without a space is discarded by the `filter_map`;
the first line whose pre-space field strips `package:` to exactly
`package` is selected; its post-space field must strip `uid:` and parse as
a `u32`. -/
def uidofParse (package output : List Char) : Except NdkErr Nat :=
  match ((rustLines output).filterMap splitOnceSpace).find?
      (fun pr => decide (stripPfx pkgField pr.1 = some package)) with
  | none => Except.error (NdkErr.PackageNotInOutput package output)
  | some pr =>
    match stripPfx uidField pr.2 with
    | none => Except.error (NdkErr.UidNotInOutput output)
    | some uid =>
      match parseU32 uid with
      | none => Except.error (NdkErr.NotAUid uid)
      | some n => Except.ok n

/-- `StripConfig` (apk.rs lines 21–29): the three debug-symbol policies. -/
inductive StripConfig
  | Default
  | Strip
  | Split
deriving DecidableEq

/-- One file-producing external operation performed by `add_lib`: the plain
copy, or one of the three `objcopy` invocations.  Each carries the
display-string arguments the code passes to the tool. -/
inductive LibAction
  | copy (src dst : List Char)
  | objcopyStrip (src dst : List Char)
  | objcopyExtract (src dwarf : List Char)
  | objcopyDebuglink (arg : List Char) (dst : List Char)
deriving DecidableEq

/-- Join path components with the host separator (`Path::join` followed by
`display`/`to_str`). -/
def joinPath (sep : Char) : List (List Char) → List Char
  | [] => []
  | [c] => c
  | c :: cs => c ++ sep :: joinPath sep cs

/-- Replace every backslash by a forward slash, one character at a time
(Rust `str::replace('\\', "/")` with a one-character replacement). -/
def unixSubst (c : Char) : Char :=
  if c = '\\' then '/' else c

/-- Rust `Path::file_name` on a nonempty component list: the last
component. -/
def fnameOf (comps : List (List Char)) : List Char :=
  comps.getLastD []

/-- Rust `Path::with_extension "dwarf"` restricted to the file name: replace
the extension after the last dot, where a lone leading dot (hidden file) or
a dot-free name has no extension and the new extension is appended. -/
def withExtName (name ext : List Char) : List Char :=
  match name with
  | [] => '.' :: ext
  | c :: rest =>
    if '.' ∈ rest then
      ((name.reverse.dropWhile (fun x => x ≠ '.')).drop 1).reverse ++ '.' :: ext
    else c :: rest ++ '.' :: ext

/-- The archive-internal path `lib/<abi>/<file name>` as components
(apk.rs line 125: `Path::new("lib").join(abi).join(path.file_name())`). -/
def libPathComps (abi fname : List Char) : List (List Char) :=
  ["lib".toList, abi, fname]

/-- Everything `UnalignedApk::add_lib` (apk.rs lines 120–180) computes for
one library on its success path.  `sep` is the host path separator used by
`Path` display, `buildDir`/`src` are component lists, `abi` is
`target.android_abi()`.  `actions` are the file-producing tool operations in
program order; `libPath` is the archive-internal path as components;
`recorded` is the forward-slash string inserted into `pending_libs`.
The existence check (`PathNotFound`), `create_dir_all` and tool-failure
aborts (`CmdFailed`) do not produce artifacts and are outside this record. -/
structure AddLibResult where
  actions : List LibAction
  libPath : List (List Char)
  recorded : List Char
deriving DecidableEq

def addLibModel (strip : StripConfig) (sep : Char)
    (buildDir src : List (List Char)) (abi : List Char) : AddLibResult :=
  let fname := fnameOf src
  let libPath := libPathComps abi fname
  let srcDisp := joinPath sep src
  let outDisp := joinPath sep (buildDir ++ libPath)
  let dwarfDisp := joinPath sep (buildDir ++ ["lib".toList, abi, withExtName fname "dwarf".toList])
  let actions :=
    match strip with
    | StripConfig.Default => [LibAction.copy srcDisp outDisp]
    | StripConfig.Strip => [LibAction.objcopyStrip srcDisp outDisp]
    | StripConfig.Split =>
      [LibAction.objcopyStrip srcDisp outDisp,
       LibAction.objcopyExtract srcDisp dwarfDisp,
       LibAction.objcopyDebuglink ("--add-gnu-debuglink=".toList ++ dwarfDisp) outDisp]
  { actions := actions
    libPath := libPath
    recorded := (joinPath sep libPath).map unixSubst }

/-- Whether an action produces the side debug-file. -/
def isSideFileAct : LibAction → Bool
  | LibAction.objcopyExtract _ _ => true
  | _ => false

/-- `HashSet::insert` on the model of `pending_libs`: a duplicate-free list,
left unchanged when the element is already present. -/
def hsInsert {α : Type} [DecidableEq α] (s : List α) (a : α) : List α :=
  if a ∈ s then s else a :: s

/-- Arguments of one `adb reverse` invocation (apk.rs line 275). -/
def revFwdArgs (e : List Char × List Char) : List (List Char) :=
  ["reverse".toList, e.1, e.2]

/-- `Apk::reverse_port_forwarding` (apk.rs lines 270–283) with the map
iteration materialized as an entry list and the adb exit status supplied by
the oracle `ok`.  Returns the entries for which adb was invoked (in order)
and the result: the loop invokes adb for each entry, and returns
`CmdFailed` at the first entry whose invocation fails, never reaching the
remaining entries and never issuing any undo invocation. -/
def reversePortForwarding (ok : List Char × List Char → Bool) :
    List (List Char × List Char) →
      List (List Char × List Char) × Except NdkErr Unit
  | [] => ([], Except.ok ())
  | e :: rest =>
    if ok e then
      let r := reversePortForwarding ok rest
      (e :: r.1, r.2)
    else ([e], Except.error (NdkErr.CmdFailed (revFwdArgs e)))

/-- A UTF-8 continuation byte. -/
def isCont (b : Nat) : Bool := 0x80 ≤ b && b ≤ 0xBF

def contVal (b : Nat) : Nat := b - 0x80

/-- UTF-8 decoding of a byte sequence (RFC 3629: shortest forms only,
surrogates and values above U+10FFFF rejected), as performed by
`std::str::from_utf8`.  `none` means the bytes are not valid UTF-8. -/
def utf8Decode : List Nat → Option (List Char)
  | [] => some []
  | b :: rest =>
    if b ≤ 0x7F then (utf8Decode rest).map (fun cs => Char.ofNat b :: cs)
    else if 0xC2 ≤ b && b ≤ 0xDF then
      match rest with
      | c :: r =>
        if isCont c then
          (utf8Decode r).map
            (fun cs => Char.ofNat ((b - 0xC0) * 64 + contVal c) :: cs)
        else none
      | [] => none
    else if 0xE0 ≤ b && b ≤ 0xEF then
      match rest with
      | c :: d :: r =>
        let okSecond :=
          if b = 0xE0 then 0xA0 ≤ c && c ≤ 0xBF
          else if b = 0xED then 0x80 ≤ c && c ≤ 0x9F
          else isCont c
        if okSecond && isCont d then
          (utf8Decode r).map
            (fun cs =>
              Char.ofNat ((b - 0xE0) * 4096 + contVal c * 64 + contVal d) :: cs)
        else none
      | _ => none
    else if 0xF0 ≤ b && b ≤ 0xF4 then
      match rest with
      | c :: d :: e :: r =>
        let okSecond :=
          if b = 0xF0 then 0x90 ≤ c && c ≤ 0xBF
          else if b = 0xF4 then 0x80 ≤ c && c ≤ 0x8F
          else isCont c
        if okSecond && isCont d && isCont e then
          (utf8Decode r).map
            (fun cs =>
              Char.ofNat
                ((b - 0xF0) * 262144 + contVal c * 4096 + contVal d * 64 +
                  contVal e) :: cs)
        else none
      | _ => none
    else none

/-- Arguments of the `pm list package -U` invocation (apk.rs lines 314–319). -/
def pmListArgs (package : List Char) : List (List Char) :=
  ["shell".toList, "pm".toList, "list".toList, "package".toList,
   "-U".toList, package]

/-- `Apk::uidof` from the raw process result: a non-zero exit yields
`CmdFailed`; on success the stdout bytes pass through
`std::str::from_utf8(..).unwrap()` — `none` models the panic of that
`unwrap` on invalid UTF-8 (apk.rs line 326) — and the decoded text is then
parsed by `uidofParse`. -/
def uidofModel (package : List Char) (exitOk : Bool) (stdout : List Nat) :
    Option (Except NdkErr Nat) :=
  if exitOk then
    match utf8Decode stdout with
    | none => none
    | some chars => some (uidofParse package chars)
  else some (Except.error (NdkErr.CmdFailed (pmListArgs package)))

/-- The three build states of the typestate chain: `UnalignedApk` (created),
`UnsignedApk` (aligned, unsigned) and `Apk` (signed). -/
inductive HState
  | created
  | unsigned
  | signed
deriving DecidableEq

/-- A pipeline-protocol state: the set of live (not yet consumed) handles
with fresh-id supply `next`.  Because every transition of the Rust API takes
its input handle by value (`self`, exclusive ownership), a transition
removes the consumed handle from the live set and issues a fresh id for the
produced handle. -/
structure PipState where
  next : Nat
  live : List (Nat × HState)
deriving DecidableEq

def initPip : PipState := { next := 0, live := [] }

/-- The API calls of the pipeline: `ApkConfig::create_apk`,
`UnalignedApk::add_pending_libs_and_align` and `UnsignedApk::sign`,
identified by the handle they consume. -/
inductive ApkOp
  | create
  | align (i : Nat)
  | sign (i : Nat)
deriving DecidableEq

def lookupH (l : List (Nat × HState)) (i : Nat) : Option HState :=
  (l.find? (fun p => p.1 == i)).map (fun p => p.2)

def removeH (l : List (Nat × HState)) (i : Nat) : List (Nat × HState) :=
  l.filter (fun p => p.1 != i)

/-- One API call, as permitted by the Rust types: `create_apk` needs no
handle; `add_pending_libs_and_align` consumes a `created` handle (it takes
`self: UnalignedApk` by value, apk.rs line 199); `sign` consumes an
`unsigned` handle (`self: UnsignedApk` by value, apk.rs line 236).  No
runtime ordering check exists beyond these type-level requirements. -/
inductive ApkStep : PipState → ApkOp → PipState → Prop
  | create (s : PipState) :
      ApkStep s ApkOp.create
        { next := s.next + 1, live := (s.next, HState.created) :: s.live }
  | align (s : PipState) (i : Nat)
      (h : lookupH s.live i = some HState.created) :
      ApkStep s (ApkOp.align i)
        { next := s.next + 1,
          live := (s.next, HState.unsigned) :: removeH s.live i }
  | sign (s : PipState) (i : Nat)
      (h : lookupH s.live i = some HState.unsigned) :
      ApkStep s (ApkOp.sign i)
        { next := s.next + 1,
          live := (s.next, HState.signed) :: removeH s.live i }

/-- A sequence of API calls executed from `s`, ending in `t`. -/
inductive ApkReach : PipState → List ApkOp → PipState → Prop
  | nil (s : PipState) : ApkReach s [] s
  | cons {s t u : PipState} {op : ApkOp} {ops : List ApkOp} :
      ApkStep s op t → ApkReach t ops u → ApkReach s (op :: ops) u

/-- Whether an API call uses (and, here, consumes) handle `i`. -/
def usesH : ApkOp → Nat → Bool
  | ApkOp.create, _ => false
  | ApkOp.align j, i => j == i
  | ApkOp.sign j, i => j == i

theorem withExtName_dot_suffix (name ext : List Char) :
    ∃ stem, withExtName name ext = stem ++ '.' :: ext := by
  cases name with
  | nil => exact ⟨[], rfl⟩
  | cons c rest =>
    by_cases h : '.' ∈ rest
    · refine ⟨(((c :: rest).reverse.dropWhile (fun x => x ≠ '.')).drop 1).reverse, ?_⟩
      simp [withExtName, h]
    · exact ⟨c :: rest, by simp [withExtName, h]⟩

/-- C1 counterexample: with the fields separated by a tab, as the spec
writes them, no line contains a space, `split_once(' ')` discards every
line, and `uidof` returns `PackageNotInOutput` — not `1000`. -/
theorem uidof_tab_separated_cex :
    uidofParse "com.example".toList
      "package:com.example\tuid:1000\npackage:com.example.demo\tuid:2000".toList
      = Except.error (NdkErr.PackageNotInOutput "com.example".toList
          "package:com.example\tuid:1000\npackage:com.example.demo\tuid:2000".toList)
    ∧ uidofParse "com.example".toList
        "package:com.example\tuid:1000\npackage:com.example.demo\tuid:2000".toList
        ≠ Except.ok 1000 := by
  decide

/-- C1 (amended): with the fields separated by a single space — the format
`pm list package -U` actually emits and the format the code splits at —
querying `com.example` against the two-line output returns `1000`, not
`2000`, in either line order: the line whose stripped `package:` field
equals the identity exactly is selected, never a substring match. -/
theorem uidof_exact_match_space_separated :
    uidofParse "com.example".toList
      "package:com.example uid:1000\npackage:com.example.demo uid:2000".toList
      = Except.ok 1000
    ∧ uidofParse "com.example".toList
        "package:com.example.demo uid:2000\npackage:com.example uid:1000".toList
        = Except.ok 1000 := by
  decide

/-- C3 counterexample: an output whose exact-match package line carries no
`uid:` field because it has no second field at all (no space) is discarded
by `split_once(' ')`, so `uidof` returns `PackageNotInOutput`, not the
`UidNotInOutput` the claim requires for every such output. -/
theorem uidof_missing_uid_field_cex :
    uidofParse "com.example".toList "package:com.example".toList
      = Except.error (NdkErr.PackageNotInOutput "com.example".toList
          "package:com.example".toList)
    ∧ uidofParse "com.example".toList "package:com.example".toList
        ≠ Except.error (NdkErr.UidNotInOutput "package:com.example".toList) := by
  decide

theorem stripPfx_append (p s : List Char) : stripPfx p (p ++ s) = some s := by
  induction p with
  | nil => rfl
  | cons c cs ih => simp [stripPfx, ih]

/-- C3 (amended), universally over outputs: whenever the space-split line
pairs of the output decompose as `ls1 ++ (package:<identity>, field) :: ls2`
with no exact match in `ls1` — i.e. the exact-match package line exists and
has a space-separated second field `field` — a `field` without the `uid:`
marker yields `UidNotInOutput`, and a `field` whose `uid:` remainder does
not parse as a `u32` (such as `uid:abc`) yields `NotAUid`; and whenever no
line pair carries an exact-match `package:` field — including the case of a
matching line with no second field at all, which the space split discards —
the result is `PackageNotInOutput`. -/
theorem uidof_error_taxonomy (package : List Char) :
    (∀ output ls1 ls2 field,
      (rustLines output).filterMap splitOnceSpace
          = ls1 ++ (pkgField ++ package, field) :: ls2 →
      (∀ pr ∈ ls1, stripPfx pkgField pr.1 ≠ some package) →
      (stripPfx uidField field = none →
        uidofParse package output = Except.error (NdkErr.UidNotInOutput output))
      ∧ (∀ u, stripPfx uidField field = some u → parseU32 u = none →
        uidofParse package output = Except.error (NdkErr.NotAUid u)))
    ∧ (∀ output,
      (∀ pr ∈ (rustLines output).filterMap splitOnceSpace,
        stripPfx pkgField pr.1 ≠ some package) →
      uidofParse package output
        = Except.error (NdkErr.PackageNotInOutput package output)) := by
  constructor
  · intro output ls1 ls2 field hdec hfirst
    have h1 : ls1.find?
        (fun pr => decide (stripPfx pkgField pr.1 = some package)) = none := by
      rw [List.find?_eq_none]
      intro pr hpr
      simpa using hfirst pr hpr
    have hfind : ((rustLines output).filterMap splitOnceSpace).find?
        (fun pr => decide (stripPfx pkgField pr.1 = some package))
        = some (pkgField ++ package, field) := by
      rw [hdec, List.find?_append, h1]
      simp [stripPfx_append]
    constructor
    · intro hno
      simp [uidofParse, hfind, hno]
    · intro u hu hpu
      simp [uidofParse, hfind, hu, hpu]
  · intro output hnone
    have hfind : ((rustLines output).filterMap splitOnceSpace).find?
        (fun pr => decide (stripPfx pkgField pr.1 = some package)) = none := by
      rw [List.find?_eq_none]
      intro pr hpr
      simpa using hnone pr hpr
    simp [uidofParse, hfind]

/-- Witness for C3: the amended taxonomy applied at the spec's concrete
outputs — a matching line with a `foo:1000` second field, a matching line
with `uid:abc`, a substring-only match, and a matching line with no second
field at all. -/
theorem uidof_error_taxonomy_witness :
    uidofParse "com.example".toList "package:com.example foo:1000".toList
      = Except.error (NdkErr.UidNotInOutput "package:com.example foo:1000".toList)
    ∧ uidofParse "com.example".toList "package:com.example uid:abc".toList
        = Except.error (NdkErr.NotAUid "abc".toList)
    ∧ uidofParse "com.example".toList "package:com.example.demo uid:2000".toList
        = Except.error (NdkErr.PackageNotInOutput "com.example".toList
            "package:com.example.demo uid:2000".toList)
    ∧ uidofParse "com.example".toList "package:com.example".toList
        = Except.error (NdkErr.PackageNotInOutput "com.example".toList
            "package:com.example".toList) :=
  ⟨((uidof_error_taxonomy "com.example".toList).1
      "package:com.example foo:1000".toList [] []
      "foo:1000".toList (by decide) (by decide)).1 (by decide),
   ((uidof_error_taxonomy "com.example".toList).1
      "package:com.example uid:abc".toList [] []
      "uid:abc".toList (by decide) (by decide)).2
      "abc".toList (by decide) (by decide),
   (uidof_error_taxonomy "com.example".toList).2
      "package:com.example.demo uid:2000".toList (by decide),
   (uidof_error_taxonomy "com.example".toList).2
      "package:com.example".toList (by decide)⟩

/-- C2 counterexample: at a concrete build directory the third `objcopy`
invocation of `add_lib` passes `--add-gnu-debuglink=` followed by the side
debug-file's full path (`dwarf_path.display()`), which differs from its
basename. -/
theorem add_lib_debuglink_basename_cex :
    (addLibModel StripConfig.Split '/' ["target".toList]
        ["target".toList, "debug".toList, "libfoo.so".toList]
        "arm64-v8a".toList).actions.get? 2
      = some (LibAction.objcopyDebuglink
          "--add-gnu-debuglink=target/lib/arm64-v8a/libfoo.dwarf".toList
          "target/lib/arm64-v8a/libfoo.so".toList)
    ∧ "--add-gnu-debuglink=target/lib/arm64-v8a/libfoo.dwarf".toList
        ≠ "--add-gnu-debuglink=libfoo.dwarf".toList := by
  decide

/-- C2 (amended): the third object-copy invocation made by `add_lib` under
the split policy embeds a debug-link argument that references the side
debug-file by its full filesystem path — the build-dir-joined path as
formatted by `Path::display` — not by its basename. -/
theorem add_lib_debuglink_full_path (sep : Char) (buildDir src : List (List Char))
    (abi : List Char) :
    (addLibModel StripConfig.Split sep buildDir src abi).actions.get? 2
      = some (LibAction.objcopyDebuglink
          ("--add-gnu-debuglink=".toList ++
            joinPath sep
              (buildDir ++
                ["lib".toList, abi, withExtName (fnameOf src) "dwarf".toList]))
          (joinPath sep (buildDir ++ libPathComps abi (fnameOf src)))) := rfl

/-- C4: under the split policy `add_lib` performs exactly three
file-producing operations — strip into the archive destination, extract
the side debug-file (whose name carries the `.dwarf` extension and which
sits next to the destination, in the same `lib/<abi>` directory), and a
third object-copy embedding a debug link into the stripped destination —
while the keep-as-is and strip-in-place policies never produce a side
debug-file. -/
theorem add_lib_split_three_artifacts (sep : Char) (buildDir src : List (List Char))
    (abi : List Char) :
    (addLibModel StripConfig.Split sep buildDir src abi).actions.length = 3
    ∧ (addLibModel StripConfig.Split sep buildDir src abi).actions
        = [LibAction.objcopyStrip (joinPath sep src)
             (joinPath sep (buildDir ++ libPathComps abi (fnameOf src))),
           LibAction.objcopyExtract (joinPath sep src)
             (joinPath sep
               (buildDir ++
                 ["lib".toList, abi, withExtName (fnameOf src) "dwarf".toList])),
           LibAction.objcopyDebuglink
             ("--add-gnu-debuglink=".toList ++
               joinPath sep
                 (buildDir ++
                   ["lib".toList, abi, withExtName (fnameOf src) "dwarf".toList]))
             (joinPath sep (buildDir ++ libPathComps abi (fnameOf src)))]
    ∧ ((addLibModel StripConfig.Split sep buildDir src abi).actions.filter
         isSideFileAct).length = 1
    ∧ (addLibModel StripConfig.Default sep buildDir src abi).actions.all
        (fun a => !isSideFileAct a) = true
    ∧ (addLibModel StripConfig.Strip sep buildDir src abi).actions.all
        (fun a => !isSideFileAct a) = true
    ∧ ∃ stem, withExtName (fnameOf src) "dwarf".toList
        = stem ++ '.' :: "dwarf".toList := by
  refine ⟨rfl, rfl, rfl, rfl, rfl, withExtName_dot_suffix (fnameOf src) "dwarf".toList⟩

/-- C5: for every debug-symbol policy, host separator, build directory,
source path and ABI, the archive-internal path computed by `add_lib` is
`lib/<abi>/<source file name>` — a function of the ABI and the source file
name only; choosing a different policy never changes it. -/
theorem add_lib_archive_path_policy_independent (strip : StripConfig) (sep : Char)
    (buildDir src : List (List Char)) (abi : List Char) :
    (addLibModel strip sep buildDir src abi).libPath
      = ["lib".toList, abi, fnameOf src]
    ∧ ∀ strip2 : StripConfig,
        (addLibModel strip sep buildDir src abi).libPath
          = (addLibModel strip2 sep buildDir src abi).libPath := by
  exact ⟨rfl, fun strip2 => rfl⟩

theorem map_unixSubst_of_no_backslash {l : List Char} (h : ('\\' : Char) ∉ l) :
    l.map unixSubst = l := by
  induction l with
  | nil => rfl
  | cons c cs ih =>
    have hc : c ≠ '\\' := fun hc => h (hc ▸ List.mem_cons_self c cs)
    have hcs := ih (fun hm => h (List.mem_cons_of_mem c hm))
    simp [unixSubst, hc, hcs]

/-- C6: the path recorded in the pending set by `add_lib` uses forward-slash
separators regardless of whether the host separator is `/` or `\`: as long
as the ABI name and the source file name contain no backslash, the recorded
string is `lib/<abi>/<file name>`. -/
theorem add_lib_recorded_forward_slashes (strip : StripConfig) (sep : Char)
    (buildDir src : List (List Char)) (abi : List Char)
    (hsep : sep = '/' ∨ sep = '\\')
    (habi : ('\\' : Char) ∉ abi) (hf : ('\\' : Char) ∉ fnameOf src) :
    (addLibModel strip sep buildDir src abi).recorded
      = "lib".toList ++ '/' :: abi ++ '/' :: fnameOf src := by
  have hsep' : unixSubst sep = '/' := by
    rcases hsep with h | h <;> subst h <;> rfl
  have h1 : abi.map unixSubst = abi := map_unixSubst_of_no_backslash habi
  have h2 : (fnameOf src).map unixSubst = fnameOf src :=
    map_unixSubst_of_no_backslash hf
  show ("lib".toList ++ sep :: (abi ++ sep :: fnameOf src)).map unixSubst
      = "lib".toList ++ '/' :: abi ++ '/' :: fnameOf src
  rw [List.map_append, List.map_cons, List.map_append, List.map_cons, hsep', h1, h2]
  rfl

/-- Witness for C6 at a backslash host separator and the ABI `arm64-v8a`. -/
theorem add_lib_recorded_forward_slashes_witness :
    (addLibModel StripConfig.Default '\\' ["target".toList]
        ["libfoo.so".toList] "arm64-v8a".toList).recorded
      = "lib".toList ++ '/' :: "arm64-v8a".toList ++ '/' :: fnameOf ["libfoo.so".toList]
    ∧ (addLibModel StripConfig.Default '\\' ["target".toList]
        ["libfoo.so".toList] "arm64-v8a".toList).recorded
      = "lib/arm64-v8a/libfoo.so".toList :=
  ⟨add_lib_recorded_forward_slashes StripConfig.Default '\\' ["target".toList]
      ["libfoo.so".toList] "arm64-v8a".toList (Or.inr rfl) (by decide) (by decide),
   by decide⟩

theorem hsInsert_idem {α : Type} [DecidableEq α] (s : List α) (a : α) :
    hsInsert (hsInsert s a) a = hsInsert s a := by
  by_cases h : a ∈ s
  · simp [hsInsert, h]
  · simp [hsInsert, h]

theorem count_one_of_mem_nodup {s : List (List Char)} {a : List Char}
    (hnd : s.Nodup) (h : a ∈ s) : s.count a = 1 := by
  induction s with
  | nil => cases h
  | cons x xs ih =>
    rcases List.nodup_cons.mp hnd with ⟨hx, hxs⟩
    rcases List.mem_cons.mp h with h1 | h1
    · subst h1
      rw [List.count_cons_self, List.count_eq_zero_of_not_mem hx]
    · have hne : a ≠ x := fun he => hx (he ▸ h1)
      rw [List.count_cons_of_ne hne, ih hxs h1]

theorem hsInsert_count (s : List (List Char)) (a : List Char)
    (hnd : s.Nodup) : (hsInsert s a).count a = 1 := by
  by_cases h : a ∈ s
  · rw [hsInsert, if_pos h]
    exact count_one_of_mem_nodup hnd h
  · rw [hsInsert, if_neg h, List.count_cons_self,
      List.count_eq_zero_of_not_mem h]

theorem hsInsert_nodup (s : List (List Char)) (a : List Char)
    (hnd : s.Nodup) : (hsInsert s a).Nodup := by
  by_cases h : a ∈ s
  · rw [hsInsert, if_pos h]; exact hnd
  · rw [hsInsert, if_neg h]; exact List.nodup_cons.mpr ⟨h, hnd⟩

/-- C7: the pending-library set is idempotent under repeated `add_lib` calls
yielding the same archive-internal path — inserting the recorded path twice
leaves exactly one entry for it — and insertion preserves the no-duplicate
invariant. -/
theorem pending_libs_idempotent (strip : StripConfig) (sep : Char)
    (buildDir src : List (List Char)) (abi : List Char)
    (pending : List (List Char)) (hnd : pending.Nodup) :
    hsInsert (hsInsert pending ((addLibModel strip sep buildDir src abi).recorded))
        ((addLibModel strip sep buildDir src abi).recorded)
      = hsInsert pending ((addLibModel strip sep buildDir src abi).recorded)
    ∧ (hsInsert pending ((addLibModel strip sep buildDir src abi).recorded)).count
        ((addLibModel strip sep buildDir src abi).recorded) = 1
    ∧ (hsInsert pending ((addLibModel strip sep buildDir src abi).recorded)).Nodup :=
  ⟨hsInsert_idem pending _, hsInsert_count pending _ hnd, hsInsert_nodup pending _ hnd⟩

/-- Witness for C7: one staged path already pending, the same `add_lib`
result inserted twice. -/
theorem pending_libs_idempotent_witness :
    hsInsert (hsInsert ["lib/arm64-v8a/libmain.so".toList]
        ((addLibModel StripConfig.Default '/' ["target".toList]
          ["libfoo.so".toList] "arm64-v8a".toList).recorded))
        ((addLibModel StripConfig.Default '/' ["target".toList]
          ["libfoo.so".toList] "arm64-v8a".toList).recorded)
      = hsInsert ["lib/arm64-v8a/libmain.so".toList]
          ((addLibModel StripConfig.Default '/' ["target".toList]
            ["libfoo.so".toList] "arm64-v8a".toList).recorded)
    ∧ (hsInsert ["lib/arm64-v8a/libmain.so".toList]
        ((addLibModel StripConfig.Default '/' ["target".toList]
          ["libfoo.so".toList] "arm64-v8a".toList).recorded)).count
        ((addLibModel StripConfig.Default '/' ["target".toList]
          ["libfoo.so".toList] "arm64-v8a".toList).recorded) = 1
    ∧ (hsInsert ["lib/arm64-v8a/libmain.so".toList]
        ((addLibModel StripConfig.Default '/' ["target".toList]
          ["libfoo.so".toList] "arm64-v8a".toList).recorded)).Nodup :=
  pending_libs_idempotent StripConfig.Default '/' ["target".toList]
    ["libfoo.so".toList] "arm64-v8a".toList
    ["lib/arm64-v8a/libmain.so".toList] (by decide)

/-- C8: `reverse_port_forwarding` issues exactly one bridge invocation per
entry when every invocation succeeds (the invocation list is the entry list
itself), and when the entries are `pre ++ e :: post` with all of `pre`
succeeding and `e` failing, it invokes the bridge exactly for `pre ++ [e]` —
aborting with `CmdFailed` before any entry of `post` and issuing no undo
invocation for the already-forwarded `pre`. -/
theorem reverse_port_forwarding_fail_fast (ok : List Char × List Char → Bool) :
    (∀ entries : List (List Char × List Char), (∀ e ∈ entries, ok e = true) →
        reversePortForwarding ok entries = (entries, Except.ok ()))
    ∧ (∀ pre e post, (∀ x ∈ pre, ok x = true) → ok e = false →
        reversePortForwarding ok (pre ++ e :: post)
          = (pre ++ [e], Except.error (NdkErr.CmdFailed (revFwdArgs e)))) := by
  constructor
  · intro entries h
    induction entries with
    | nil => rfl
    | cons e rest ih =>
      have he : ok e = true := h e (List.mem_cons_self e rest)
      have hr := ih (fun x hx => h x (List.mem_cons_of_mem e hx))
      simp [reversePortForwarding, he, hr]
  · intro pre e post hpre he
    induction pre with
    | nil => simp [reversePortForwarding, he]
    | cons x xs ih =>
      have hx : ok x = true := hpre x (List.mem_cons_self x xs)
      have hr := ih (fun y hy => hpre y (List.mem_cons_of_mem x hy))
      simp [reversePortForwarding, hx, hr]

/-- Witness for C8: the spec's two-entry mapping, once with both invocations
succeeding (exactly two invocations) and once with the second failing (the
first already forwarded, nothing undone, `post` empty so nothing skipped). -/
theorem reverse_port_forwarding_fail_fast_witness :
    reversePortForwarding (fun _ => true)
        [("tcp:8000".toList, "tcp:8000".toList),
         ("tcp:9000".toList, "tcp:9000".toList)]
      = ([("tcp:8000".toList, "tcp:8000".toList),
          ("tcp:9000".toList, "tcp:9000".toList)], Except.ok ())
    ∧ reversePortForwarding (fun e => e.1 == "tcp:8000".toList)
        [("tcp:8000".toList, "tcp:8000".toList),
         ("tcp:9000".toList, "tcp:9000".toList)]
      = ([("tcp:8000".toList, "tcp:8000".toList),
          ("tcp:9000".toList, "tcp:9000".toList)],
         Except.error (NdkErr.CmdFailed
           (revFwdArgs ("tcp:9000".toList, "tcp:9000".toList)))) :=
  ⟨(reverse_port_forwarding_fail_fast (fun _ => true)).1
      [("tcp:8000".toList, "tcp:8000".toList),
       ("tcp:9000".toList, "tcp:9000".toList)] (by decide),
   (reverse_port_forwarding_fail_fast (fun e => e.1 == "tcp:8000".toList)).2
      [("tcp:8000".toList, "tcp:8000".toList)]
      ("tcp:9000".toList, "tcp:9000".toList) [] (by decide) (by decide)⟩

/-- C10 (implicit): when the package-listing command exits successfully but
its stdout is not valid UTF-8, `uidof` panics on the `unwrap` of the UTF-8
conversion — modelled as `none` — instead of returning any typed
`NdkErr`. -/
theorem uidof_non_utf8_panics (package : List Char) (stdout : List Nat)
    (h : utf8Decode stdout = none) :
    uidofModel package true stdout = none := by
  simp [uidofModel, h]

/-- Witness for C10: the byte `0xFF` is never valid UTF-8. -/
theorem uidof_non_utf8_panics_witness :
    utf8Decode [255] = none
    ∧ uidofModel "com.example".toList true [255] = none :=
  ⟨by decide, uidof_non_utf8_panics "com.example".toList [255] (by decide)⟩

theorem lookupH_mem {l : List (Nat × HState)} {i : Nat} {hs : HState}
    (hl : lookupH l i = some hs) : (i, hs) ∈ l := by
  unfold lookupH at hl
  cases hfind : l.find? (fun p => p.1 == i) with
  | none => rw [hfind] at hl; cases hl
  | some p =>
    rw [hfind] at hl
    have hmem : p ∈ l := List.mem_of_find?_eq_some hfind
    have hpred := List.find?_some hfind
    have hpi : p.1 = i := by simpa using hpred
    have hp2 : p.2 = hs := by simpa using hl
    have hp : p = (i, hs) := by
      cases p with
      | mk a b => simp_all
    exact hp ▸ hmem

theorem apkStep_bound {s t : PipState} {op : ApkOp} (hstep : ApkStep s op t)
    (hb : ∀ p ∈ s.live, p.1 < s.next) : ∀ p ∈ t.live, p.1 < t.next := by
  cases hstep with
  | create =>
    intro p hp
    rcases List.mem_cons.mp hp with h | h
    · subst h; exact Nat.lt_succ_self _
    · exact Nat.lt_succ_of_lt (hb p h)
  | align k hl =>
    intro p hp
    rcases List.mem_cons.mp hp with h | h
    · subst h; exact Nat.lt_succ_self _
    · exact Nat.lt_succ_of_lt (hb p (List.mem_of_mem_filter h))
  | sign k hl =>
    intro p hp
    rcases List.mem_cons.mp hp with h | h
    · subst h; exact Nat.lt_succ_self _
    · exact Nat.lt_succ_of_lt (hb p (List.mem_of_mem_filter h))

theorem apkReach_bound : ∀ {s : PipState} {ops : List ApkOp} {t : PipState},
    ApkReach s ops t → (∀ p ∈ s.live, p.1 < s.next) →
    ∀ p ∈ t.live, p.1 < t.next := by
  intro s ops t hr
  induction hr with
  | nil s => exact fun hb => hb
  | cons hstep hrest ih => exact fun hb => ih (apkStep_bound hstep hb)

theorem apkReach_not_live {i : Nat} : ∀ {s : PipState} {ops : List ApkOp}
    {t : PipState}, ApkReach s ops t → (∀ hs : HState, (i, hs) ∉ s.live) →
    i < s.next →
    (∀ op ∈ ops, usesH op i = false)
    ∧ (∀ hs : HState, (i, hs) ∉ t.live) ∧ i < t.next := by
  intro s ops t hr
  induction hr with
  | nil s =>
    intro hni hlt
    exact ⟨fun op h => absurd h (List.not_mem_nil op), hni, hlt⟩
  | cons hstep hrest ih =>
    intro hni hlt
    cases hstep with
    | create =>
      obtain ⟨hops, hu, hun⟩ := ih
        (by
          intro hs hm
          rcases List.mem_cons.mp hm with h2 | h2
          · simp only [Prod.mk.injEq] at h2
            exact absurd (h2.1 ▸ hlt) (Nat.lt_irrefl _)
          · exact hni hs h2)
        (Nat.lt_succ_of_lt hlt)
      refine ⟨?_, hu, hun⟩
      intro op' hop'
      rcases List.mem_cons.mp hop' with h2 | h2
      · subst h2; rfl
      · exact hops op' h2
    | align k hl =>
      have hki : k ≠ i := fun he => hni HState.created (he ▸ lookupH_mem hl)
      obtain ⟨hops, hu, hun⟩ := ih
        (by
          intro hs hm
          rcases List.mem_cons.mp hm with h2 | h2
          · simp only [Prod.mk.injEq] at h2
            exact absurd (h2.1 ▸ hlt) (Nat.lt_irrefl _)
          · exact hni hs (List.mem_of_mem_filter h2))
        (Nat.lt_succ_of_lt hlt)
      refine ⟨?_, hu, hun⟩
      intro op' hop'
      rcases List.mem_cons.mp hop' with h2 | h2
      · subst h2; simpa [usesH] using hki
      · exact hops op' h2
    | sign k hl =>
      have hki : k ≠ i := fun he => hni HState.unsigned (he ▸ lookupH_mem hl)
      obtain ⟨hops, hu, hun⟩ := ih
        (by
          intro hs hm
          rcases List.mem_cons.mp hm with h2 | h2
          · simp only [Prod.mk.injEq] at h2
            exact absurd (h2.1 ▸ hlt) (Nat.lt_irrefl _)
          · exact hni hs (List.mem_of_mem_filter h2))
        (Nat.lt_succ_of_lt hlt)
      refine ⟨?_, hu, hun⟩
      intro op' hop'
      rcases List.mem_cons.mp hop' with h2 | h2
      · subst h2; simpa [usesH] using hki
      · exact hops op' h2

theorem apkReach_unsigned_origin {i : Nat} : ∀ {s : PipState}
    {ops : List ApkOp} {t : PipState},
    ApkReach s ops t → (i, HState.unsigned) ∈ t.live →
    (∃ j, (j, HState.unsigned) ∈ s.live) ∨ ∃ j, ApkOp.align j ∈ ops := by
  intro s ops t hr
  induction hr with
  | nil s => intro hu; exact Or.inl ⟨i, hu⟩
  | cons hstep hrest ih =>
    intro hu
    rcases ih hu with h | h
    · obtain ⟨j, hj⟩ := h
      cases hstep with
      | create =>
        rcases List.mem_cons.mp hj with h2 | h2
        · simp at h2
        · exact Or.inl ⟨j, h2⟩
      | align k hl =>
        rcases List.mem_cons.mp hj with h2 | h2
        · exact Or.inr ⟨k, List.mem_cons_self _ _⟩
        · exact Or.inl ⟨j, List.mem_of_mem_filter h2⟩
      | sign k hl =>
        rcases List.mem_cons.mp hj with h2 | h2
        · simp at h2
        · exact Or.inl ⟨j, List.mem_of_mem_filter h2⟩
    · obtain ⟨j, hj⟩ := h
      exact Or.inr ⟨j, List.mem_cons_of_mem _ hj⟩

theorem apkReach_created_origin {i : Nat} : ∀ {s : PipState}
    {ops : List ApkOp} {t : PipState},
    ApkReach s ops t → (i, HState.created) ∈ t.live →
    (∃ j, (j, HState.created) ∈ s.live) ∨ ApkOp.create ∈ ops := by
  intro s ops t hr
  induction hr with
  | nil s => intro hc; exact Or.inl ⟨i, hc⟩
  | cons hstep hrest ih =>
    intro hc
    rcases ih hc with h | h
    · obtain ⟨j, hj⟩ := h
      cases hstep with
      | create =>
        rcases List.mem_cons.mp hj with h2 | h2
        · exact Or.inr (List.mem_cons_self _ _)
        · exact Or.inl ⟨j, h2⟩
      | align k hl =>
        rcases List.mem_cons.mp hj with h2 | h2
        · simp at h2
        · exact Or.inl ⟨j, List.mem_of_mem_filter h2⟩
      | sign k hl =>
        rcases List.mem_cons.mp hj with h2 | h2
        · simp at h2
        · exact Or.inl ⟨j, List.mem_of_mem_filter h2⟩
    · exact Or.inr (List.mem_cons_of_mem _ h)

theorem apkReach_append {l1 : List ApkOp} : ∀ {s : PipState} {l2 : List ApkOp}
    {t : PipState}, ApkReach s (l1 ++ l2) t →
    ∃ m, ApkReach s l1 m ∧ ApkReach m l2 t := by
  induction l1 with
  | nil => intro s l2 t h; exact ⟨s, ApkReach.nil s, h⟩
  | cons op ops ih =>
    intro s l2 t h
    cases h with
    | cons hstep hrest =>
      obtain ⟨m, h1, h2⟩ := ih hrest
      exact ⟨m, ApkReach.cons hstep h1, h2⟩

/-- C9: the build states form a strictly ordered linear chain.  In every
call sequence executable against the by-value API (`ApkStep` permits
exactly what the Rust types permit: each transition consumes its input
handle), a `sign` call is preceded by an `align` call, an `align` call is
preceded by a `create` call, and once an op consumes a handle no later op
in the sequence can use that handle again — with no runtime ordering check
anywhere in the model beyond the type-level liveness requirement itself. -/
theorem build_states_strictly_ordered (ops : List ApkOp) (t : PipState)
    (hr : ApkReach initPip ops t) :
    (∀ l1 i l2, ops = l1 ++ ApkOp.sign i :: l2 → ∃ j, ApkOp.align j ∈ l1)
    ∧ (∀ l1 i l2, ops = l1 ++ ApkOp.align i :: l2 → ApkOp.create ∈ l1)
    ∧ (∀ l1 op0 i l2, ops = l1 ++ op0 :: l2 → usesH op0 i = true →
        ∀ op' ∈ l2, usesH op' i = false) := by
  refine ⟨?_, ?_, ?_⟩
  · intro l1 i l2 hdec
    subst hdec
    obtain ⟨m, h1, h2⟩ := apkReach_append hr
    cases h2 with
    | cons hstep hrest =>
      cases hstep with
      | sign k hl =>
        rcases apkReach_unsigned_origin h1 (lookupH_mem hl) with h | h
        · obtain ⟨j, hj⟩ := h
          exact absurd hj (List.not_mem_nil _)
        · exact h
  · intro l1 i l2 hdec
    subst hdec
    obtain ⟨m, h1, h2⟩ := apkReach_append hr
    cases h2 with
    | cons hstep hrest =>
      cases hstep with
      | align k hl =>
        rcases apkReach_created_origin h1 (lookupH_mem hl) with h | h
        · obtain ⟨j, hj⟩ := h
          exact absurd hj (List.not_mem_nil _)
        · exact h
  · intro l1 op0 i l2 hdec huse
    subst hdec
    obtain ⟨m, h1, h2⟩ := apkReach_append hr
    have hbound : ∀ p ∈ m.live, p.1 < m.next :=
      apkReach_bound h1 (fun p hp => absurd hp (List.not_mem_nil p))
    cases h2 with
    | cons hstep hrest =>
      cases hstep with
      | create => exact Bool.noConfusion huse
      | align k hl =>
        have hk : k = i := by simpa [usesH] using huse
        subst hk
        have hmem := lookupH_mem hl
        have hlt : k < m.next := hbound _ hmem
        exact (apkReach_not_live hrest
          (by
            intro hs hm
            rcases List.mem_cons.mp hm with h2 | h2
            · simp only [Prod.mk.injEq] at h2
              exact absurd (h2.1 ▸ hlt) (Nat.lt_irrefl _)
            · rcases List.mem_filter.mp h2 with ⟨hmem2, hpred⟩
              simp at hpred)
          (Nat.lt_succ_of_lt hlt)).1
      | sign k hl =>
        have hk : k = i := by simpa [usesH] using huse
        subst hk
        have hmem := lookupH_mem hl
        have hlt : k < m.next := hbound _ hmem
        exact (apkReach_not_live hrest
          (by
            intro hs hm
            rcases List.mem_cons.mp hm with h2 | h2
            · simp only [Prod.mk.injEq] at h2
              exact absurd (h2.1 ▸ hlt) (Nat.lt_irrefl _)
            · rcases List.mem_filter.mp h2 with ⟨hmem2, hpred⟩
              simp at hpred)
          (Nat.lt_succ_of_lt hlt)).1

/-- Witness for C9: the canonical trace create → align → sign.  The sign
call at position 2 is preceded by an align, the align at position 1 by a
create, and after the align consumed handle 0 no later op uses handle 0. -/
theorem build_states_strictly_ordered_witness :
    (∃ j, ApkOp.align j ∈ [ApkOp.create, ApkOp.align 0])
    ∧ ApkOp.create ∈ [ApkOp.create]
    ∧ (∀ op' ∈ [ApkOp.sign 1], usesH op' 0 = false) := by
  have h1 : ApkStep initPip ApkOp.create
      { next := 1, live := [(0, HState.created)] } :=
    ApkStep.create initPip
  have h2 : ApkStep { next := 1, live := [(0, HState.created)] }
      (ApkOp.align 0) { next := 2, live := [(1, HState.unsigned)] } :=
    ApkStep.align { next := 1, live := [(0, HState.created)] } 0 (by decide)
  have h3 : ApkStep { next := 2, live := [(1, HState.unsigned)] }
      (ApkOp.sign 1) { next := 3, live := [(2, HState.signed)] } :=
    ApkStep.sign { next := 2, live := [(1, HState.unsigned)] } 1 (by decide)
  have hreach : ApkReach initPip [ApkOp.create, ApkOp.align 0, ApkOp.sign 1]
      { next := 3, live := [(2, HState.signed)] } :=
    ApkReach.cons h1 (ApkReach.cons h2 (ApkReach.cons h3
      (ApkReach.nil { next := 3, live := [(2, HState.signed)] })))
  have main := build_states_strictly_ordered
    [ApkOp.create, ApkOp.align 0, ApkOp.sign 1]
    { next := 3, live := [(2, HState.signed)] } hreach
  exact ⟨main.1 [ApkOp.create, ApkOp.align 0] 1 [] rfl,
    main.2.1 [ApkOp.create] 0 [ApkOp.sign 1] rfl,
    main.2.2 [ApkOp.create] (ApkOp.align 0) 0 [ApkOp.sign 1] rfl (by decide)⟩
